import Mathlib

/-!
Shallow embedding of the producerid-service allocation engine
(`src/src/main.rs`, `Processor`).

The Redis store is modelled explicitly: the hash at `REDIS_IDS_KEY`
(the Active Assignment Table) is an association list from pod name to
producer id, and the history lists (one per Redis list key) are an
association list from key to the list of stored entries.  `lpush`
prepends, so the head of a stored list is the most recent entry, exactly
as in Redis.  Serialized history entries are modelled at the JSON-value
level (`JVal`) rather than as raw text: `serde_json::to_string` becomes
`toJSON`, `serde_json::from_str` becomes `fromJSON`.  `DateTime<Utc>`
timestamps are modelled as opaque natural numbers supplied to `acquire`
(the Rust code calls `Utc::now()` twice, so `acquire` takes two of them).
Store failures are injected through a `Faults` record with one flag per
Redis command used; `rand::random::<u16>` is modelled by an ambient
stream of draws reduced mod 2^16, and the unbounded retry loop of
`new_id` by a fuel parameter, `none` meaning the loop has not terminated
within the given fuel.
-/

set_option autoImplicit false

namespace ProduceridService

/-- The type of producer ids.  In the Rust source this is `u16`; values
written by the engine are always `< 65536` because draws are reduced mod
`UINT16`. -/
abbrev ProducerID := Nat

/-- `2^16`, the size of the `u16` space `rand::random::<u16>` draws from. -/
def UINT16 : Nat := 65536

/-- JSON values, the model of `serde_json` serialized history entries. -/
inductive JVal where
  | num : Nat → JVal
  | str : String → JVal
  | obj : List (String × JVal) → JVal

/-- `PodHistoryEntry { producer_id, date }` from the source. -/
structure PodHistoryEntry where
  producer_id : ProducerID
  date : Nat
deriving DecidableEq, Repr

/-- `ProducerHistoryEntry { pod_name, date }` from the source. -/
structure ProducerHistoryEntry where
  pod_name : String
  date : Nat
deriving DecidableEq, Repr

/-- `serde_json::to_string` on a `PodHistoryEntry` (JSON-value level). -/
def PodHistoryEntry.toJSON (e : PodHistoryEntry) : JVal :=
  JVal.obj [("producer_id", JVal.num e.producer_id), ("date", JVal.num e.date)]

/-- `serde_json::from_str` into a `PodHistoryEntry` (JSON-value level). -/
def PodHistoryEntry.fromJSON : JVal → Option PodHistoryEntry
  | JVal.obj [("producer_id", JVal.num p), ("date", JVal.num d)] => some ⟨p, d⟩
  | _ => none

/-- `serde_json::to_string` on a `ProducerHistoryEntry`. -/
def ProducerHistoryEntry.toJSON (e : ProducerHistoryEntry) : JVal :=
  JVal.obj [("pod_name", JVal.str e.pod_name), ("date", JVal.num e.date)]

/-- `serde_json::from_str` into a `ProducerHistoryEntry`. -/
def ProducerHistoryEntry.fromJSON : JVal → Option ProducerHistoryEntry
  | JVal.obj [("pod_name", JVal.str n), ("date", JVal.num d)] => some ⟨n, d⟩
  | _ => none

/-- The durable state held by Redis: the Active Assignment Table (the
hash at `REDIS_IDS_KEY`) and all history lists, keyed by list key. -/
structure Store where
  ids : List (String × ProducerID)
  lists : List (String × List JVal)

/-- The store with no bindings and no history. -/
def emptyStore : Store := ⟨[], []⟩

/-- Which store commands fail (Redis transport/protocol failure) during
one engine operation. -/
structure Faults where
  hvalsFail : Bool
  hgetFail : Bool
  hsetFail : Bool
  lpushPodFail : Bool
  lpushProdFail : Bool
  hdelFail : Bool
  lrangeFail : Bool
deriving DecidableEq, Repr

/-- All store commands succeed. -/
def noFaults : Faults := ⟨false, false, false, false, false, false, false⟩

/-- The engine's error type: `Error::Redis` for store failures,
`Error::JSON` for decode failures (the only variants the `Processor`
itself produces). -/
inductive Error where
  | redis : Error
  | json : Error
deriving DecidableEq, Repr

/-- Redis `HVALS`: all values of the hash. -/
def hvals (m : List (String × ProducerID)) : List ProducerID :=
  m.map Prod.snd

/-- Redis `HGET`: the value bound to a field, if present. -/
def hget : List (String × ProducerID) → String → Option ProducerID
  | [], _ => none
  | (a, b) :: t, k => if a = k then some b else hget t k

/-- Redis `HSET`: bind a field, overwriting an existing binding. -/
def hset : List (String × ProducerID) → String → ProducerID → List (String × ProducerID)
  | [], k, v => [(k, v)]
  | (a, b) :: t, k, v => if a = k then (k, v) :: t else (a, b) :: hset t k v

/-- Redis `HDEL`: remove a field's binding if present. -/
def hdel (m : List (String × ProducerID)) (k : String) : List (String × ProducerID) :=
  m.filter (fun p => ¬ p.1 = k)

/-- Redis `LPUSH`: prepend a value to the list at a key (creating it). -/
def lpush : List (String × List JVal) → String → JVal → List (String × List JVal)
  | [], k, v => [(k, [v])]
  | (a, l) :: t, k, v => if a = k then (a, v :: l) :: t else (a, l) :: lpush t k v

/-- Redis `LRANGE key 0 -1`: the whole list at a key, `[]` if absent. -/
def lrange : List (String × List JVal) → String → List JVal
  | [], _ => []
  | (a, l) :: t, k => if a = k then l else lrange t k

/-- The loop guard of `Processor::new_id`, inverted: a drawn value `n`
is accepted when `n ≠ 0` and `n` is not in the exclusion set. -/
def goodDraw (all_ids : List ProducerID) (n : Nat) : Bool :=
  n != 0 && !(all_ids.contains n)

/-- `Processor::new_id`: rejection sampling over the `u16` space.  The
random stream is `draws` (reduced mod `UINT16`, modelling
`rand::random::<u16>`), consumed from index `start`; `fuel` bounds the
number of loop iterations we unfold, `none` meaning the Rust loop has
not terminated within `fuel` draws. -/
def new_id (all_ids : List ProducerID) (draws : Nat → Nat) : Nat → Nat → Option ProducerID
  | _, 0 => none
  | start, fuel + 1 =>
    let n := draws start % UINT16
    if goodDraw all_ids n then some n else new_id all_ids draws (start + 1) fuel

/-- `Processor::mk_pod_key`. -/
def mk_pod_key (name : String) : String :=
  "producerid-service::history_per_pod::" ++ name

/-- `Processor::mk_producer_key`. -/
def mk_producer_key (id : ProducerID) : String :=
  "producerid-service::history_per_producer::" ++ toString id

/-- The fail-fast `collect::<Result<Vec<_>, _>>` over decoded entries in
`Processor::history`: all entries must decode, else the read fails. -/
def collectDecoded {T : Type} (dec : JVal → Option T) : List JVal → Option (List T)
  | [] => some []
  | v :: t =>
    match dec v, collectDecoded dec t with
    | some x, some xs => some (x :: xs)
    | _, _ => none

/-- `Processor::history`: `LRANGE key 0 -1`, then decode every stored
entry; a store failure or any undecodable entry fails the whole read. -/
def history {T : Type} (f : Faults) (st : Store) (key : String) (dec : JVal → Option T) :
    Except Error (List T) :=
  if f.lrangeFail then Except.error Error.redis
  else
    match collectDecoded dec (lrange st.lists key) with
    | some v => Except.ok v
    | none => Except.error Error.json

/-- `Processor::pod_history`. -/
def pod_history (f : Faults) (st : Store) (pod_name : String) :
    Except Error (List PodHistoryEntry) :=
  history f st (mk_pod_key pod_name) PodHistoryEntry.fromJSON

/-- `Processor::producer_history`. -/
def producer_history (f : Faults) (st : Store) (producer_id : ProducerID) :
    Except Error (List ProducerHistoryEntry) :=
  history f st (mk_producer_key producer_id) ProducerHistoryEntry.fromJSON

/-- `Processor::release`: `HDEL` the pod's binding.  Returns the result
together with the store as the operation leaves it. -/
def release (f : Faults) (st : Store) (pod_name : String) : Except Error Unit × Store :=
  if f.hdelFail then (Except.error Error.redis, st)
  else (Except.ok (), { st with ids := hdel st.ids pod_name })

/-- `Processor::acquire`.  Mirrors the source step by step: `HVALS` the
exclusion set; `HGET` the existing binding, any failure of which
(including absence) falls back via `or_else` to `new_id`; `HSET` the
binding; `LPUSH` a pod history entry (timestamp `tPod`), then a producer
history entry (timestamp `tProd`).  The outer `Option` is `none` exactly
when the `new_id` loop does not terminate within `fuel` draws; otherwise
the result and the store as the operation leaves it are returned. -/
def acquire (f : Faults) (st : Store) (pod_name : String) (draws : Nat → Nat) (fuel : Nat)
    (tPod tProd : Nat) : Option (Except Error ProducerID × Store) :=
  if f.hvalsFail then some (Except.error Error.redis, st)
  else
    let all_ids := hvals st.ids
    let hgetRes : Option ProducerID := if f.hgetFail then none else hget st.ids pod_name
    let idRes : Option ProducerID :=
      match hgetRes with
      | some v => some v
      | none => new_id all_ids draws 0 fuel
    match idRes with
    | none => none
    | some v =>
      if f.hsetFail then some (Except.error Error.redis, st)
      else
        let st1 : Store := { st with ids := hset st.ids pod_name v }
        if f.lpushPodFail then some (Except.error Error.redis, st1)
        else
          let st2 : Store :=
            { st1 with
              lists := lpush st1.lists (mk_pod_key pod_name)
                (PodHistoryEntry.toJSON ⟨v, tPod⟩) }
          if f.lpushProdFail then some (Except.error Error.redis, st2)
          else
            let st3 : Store :=
              { st2 with
                lists := lpush st2.lists (mk_producer_key v)
                  (ProducerHistoryEntry.toJSON ⟨pod_name, tProd⟩) }
            some (Except.ok v, st3)

/-- One engine operation, for reasoning about sequential histories. -/
inductive Op where
  | acq (pod : String) (draws : Nat → Nat) (fuel tPod tProd : Nat) : Op
  | rel (pod : String) : Op

/-- Run one operation, keeping only the resulting store (`none` when an
`acquire` diverges in `new_id`). -/
def runOp (f : Faults) (st : Store) : Op → Option Store
  | Op.acq pod draws fuel tPod tProd => (acquire f st pod draws fuel tPod tProd).map Prod.snd
  | Op.rel pod => some (release f st pod).2

/-- Run a sequence of operations, each with its own fault pattern. -/
def runOps : Store → List (Faults × Op) → Option Store
  | st, [] => some st
  | st, (f, op) :: rest =>
    match runOp f st op with
    | none => none
    | some st' => runOps st' rest

/-! ### Concrete fault patterns and stores used in closed instances -/

/-- Only the `HGET` of the existing binding fails. -/
def hgetOnlyFaults : Faults := ⟨false, true, false, false, false, false, false⟩

/-- Only the `HSET` of the binding fails. -/
def hsetOnlyFaults : Faults := ⟨false, false, true, false, false, false, false⟩

/-- Only the `LPUSH` of the pod history entry fails. -/
def lpushPodOnlyFaults : Faults := ⟨false, false, false, true, false, false, false⟩

/-- The store after `acquire "p"` on the empty store, drawing id 1,
with both timestamps 0. -/
def oneAcqStore : Store :=
  ⟨[("p", 1)],
   [(mk_pod_key "p", [PodHistoryEntry.toJSON ⟨1, 0⟩]),
    (mk_producer_key 1, [ProducerHistoryEntry.toJSON ⟨"p", 0⟩])]⟩

/-- The store after a second `acquire "p"` on `oneAcqStore`. -/
def twoAcqStore : Store :=
  ⟨[("p", 1)],
   [(mk_pod_key "p", [PodHistoryEntry.toJSON ⟨1, 0⟩, PodHistoryEntry.toJSON ⟨1, 0⟩]),
    (mk_producer_key 1,
      [ProducerHistoryEntry.toJSON ⟨"p", 0⟩, ProducerHistoryEntry.toJSON ⟨"p", 0⟩])]⟩

/-- A two-acquire run: pods `a` then `b`, drawing ids 1 then 2. -/
def c2Ops : List (Faults × Op) :=
  [(noFaults, Op.acq "a" (fun _ => 1) 1 0 0), (noFaults, Op.acq "b" (fun _ => 2) 1 0 0)]

/-- The store `c2Ops` produces from the empty store. -/
def c2RunStore : Store :=
  ⟨[("a", 1), ("b", 2)],
   [(mk_pod_key "a", [PodHistoryEntry.toJSON ⟨1, 0⟩]),
    (mk_producer_key 1, [ProducerHistoryEntry.toJSON ⟨"a", 0⟩]),
    (mk_pod_key "b", [PodHistoryEntry.toJSON ⟨2, 0⟩]),
    (mk_producer_key 2, [ProducerHistoryEntry.toJSON ⟨"b", 0⟩])]⟩

/-- A store whose pod history log for `"p"` holds one malformed entry. -/
def badEntryStore : Store := ⟨[], [(mk_pod_key "p", [JVal.num 0])]⟩

/-- A store with one binding and no history. -/
def relStore : Store := ⟨[("p", 1)], []⟩

/-- A store with an existing binding for pod `"web"`. -/
def webStore : Store := ⟨[("web", 5)], []⟩

/-! ### Basic lemmas about the store primitives -/

theorem goodDraw_eq_true {all_ids : List ProducerID} {n : Nat}
    (h : goodDraw all_ids n = true) : n ≠ 0 ∧ n ∉ all_ids := by
  simpa [goodDraw] using h

theorem new_id_good {all_ids : List ProducerID} {draws : Nat → Nat} {fuel : Nat} :
    ∀ {start : Nat} {v : ProducerID}, new_id all_ids draws start fuel = some v →
      goodDraw all_ids v = true := by
  induction fuel with
  | zero => intro start v h; simp [new_id] at h
  | succ n ih =>
    intro start v h
    simp only [new_id] at h
    split at h
    · cases h; assumption
    · exact ih h

theorem new_id_finds {all_ids : List ProducerID} {draws : Nat → Nat} :
    ∀ (fuel s j : Nat), s ≤ j → j < s + fuel →
      goodDraw all_ids (draws j % UINT16) = true →
      (∀ i, s ≤ i → i < j → goodDraw all_ids (draws i % UINT16) = false) →
      new_id all_ids draws s fuel = some (draws j % UINT16) := by
  intro fuel
  induction fuel with
  | zero => intro s j h1 h2 _ _; omega
  | succ n ih =>
    intro s j hsj hlt hg hbefore
    simp only [new_id]
    by_cases hs : s = j
    · subst hs; simp [hg]
    · have hbad : goodDraw all_ids (draws s % UINT16) = false :=
        hbefore s le_rfl (lt_of_le_of_ne hsj hs)
      simp only [hbad]
      simp only [Bool.false_eq_true, if_false]
      exact ih (s + 1) j (by omega) (by omega) hg (fun i h1 h2 => hbefore i (by omega) h2)

theorem hget_hset_self (m : List (String × ProducerID)) (k : String) (v : ProducerID) :
    hget (hset m k v) k = some v := by
  induction m with
  | nil => simp [hset, hget]
  | cons p t ih =>
    obtain ⟨a, b⟩ := p
    by_cases h : a = k
    · simp [hset, h, hget]
    · simp [hset, h, hget, ih]

theorem hset_eq_of_hget {m : List (String × ProducerID)} {k : String} {v : ProducerID}
    (h : hget m k = some v) : hset m k v = m := by
  induction m with
  | nil => simp [hget] at h
  | cons p t ih =>
    obtain ⟨a, b⟩ := p
    by_cases hak : a = k
    · subst hak
      simp only [hget, eq_self_iff_true, if_true, Option.some.injEq] at h
      simp [hset, h]
    · simp only [hget, if_neg hak] at h
      simp [hset, hak, ih h]

theorem hget_mem {m : List (String × ProducerID)} {k : String} {v : ProducerID}
    (h : hget m k = some v) : (k, v) ∈ m := by
  induction m with
  | nil => simp [hget] at h
  | cons p t ih =>
    obtain ⟨a, b⟩ := p
    by_cases hak : a = k
    · subst hak
      simp only [hget, eq_self_iff_true, if_true, Option.some.injEq] at h
      simp [h]
    · simp only [hget, if_neg hak] at h
      exact List.mem_cons_of_mem _ (ih h)

theorem mem_fst_hset {m : List (String × ProducerID)} {k x : String} {v : ProducerID}
    (h : x ∈ (hset m k v).map Prod.fst) : x = k ∨ x ∈ m.map Prod.fst := by
  induction m with
  | nil =>
    simp only [hset, List.map_cons, List.map_nil, List.mem_singleton] at h
    exact Or.inl h
  | cons p t ih =>
    obtain ⟨a, b⟩ := p
    by_cases hak : a = k
    · simp only [hset, if_pos hak, List.map_cons, List.mem_cons] at h
      rcases h with h1 | h1
      · exact Or.inl h1
      · exact Or.inr (List.mem_cons_of_mem _ h1)
    · simp only [hset, if_neg hak, List.map_cons, List.mem_cons] at h
      rcases h with h1 | h1
      · subst h1; exact Or.inr (List.mem_cons_self _ _)
      · rcases ih h1 with h2 | h2
        · exact Or.inl h2
        · exact Or.inr (List.mem_cons_of_mem _ h2)

theorem mem_snd_hset {m : List (String × ProducerID)} {k : String} {x v : ProducerID}
    (h : x ∈ hvals (hset m k v)) : x = v ∨ x ∈ hvals m := by
  induction m with
  | nil =>
    simp only [hvals, hset, List.map_cons, List.map_nil, List.mem_singleton] at h
    exact Or.inl h
  | cons p t ih =>
    obtain ⟨a, b⟩ := p
    by_cases hak : a = k
    · simp only [hvals, hset, if_pos hak, List.map_cons, List.mem_cons] at h
      rcases h with h1 | h1
      · exact Or.inl h1
      · exact Or.inr (List.mem_cons_of_mem _ h1)
    · simp only [hvals, hset, if_neg hak, List.map_cons, List.mem_cons] at h
      rcases h with h1 | h1
      · exact Or.inr (h1 ▸ List.mem_cons_self _ _)
      · rcases ih h1 with h2 | h2
        · exact Or.inl h2
        · exact Or.inr (List.mem_cons_of_mem _ h2)

/-- The field names of the Active Assignment Table are pairwise distinct
(true of any Redis hash). -/
def keysNodup (m : List (String × ProducerID)) : Prop :=
  (m.map Prod.fst).Nodup

/-- The values of the Active Assignment Table are pairwise distinct:
the injectivity invariant of the pod → ProducerID mapping. -/
def valsNodup (m : List (String × ProducerID)) : Prop :=
  (m.map Prod.snd).Nodup

theorem keysNodup_hset {m : List (String × ProducerID)} {k : String} {v : ProducerID}
    (h : keysNodup m) : keysNodup (hset m k v) := by
  induction m with
  | nil => simp [keysNodup, hset]
  | cons p t ih =>
    obtain ⟨a, b⟩ := p
    simp only [keysNodup, List.map_cons, List.nodup_cons] at h
    by_cases hak : a = k
    · subst hak
      simpa [keysNodup, hset] using h
    · simp only [keysNodup, hset, if_neg hak, List.map_cons, List.nodup_cons]
      refine ⟨fun hmem => ?_, ih h.2⟩
      rcases mem_fst_hset hmem with h1 | h1
      · exact hak h1
      · exact h.1 h1

theorem valsNodup_hset {m : List (String × ProducerID)} {k : String} {v : ProducerID}
    (hm : valsNodup m) (hv : v ∉ hvals m) : valsNodup (hset m k v) := by
  induction m with
  | nil => simp [valsNodup, hset]
  | cons p t ih =>
    obtain ⟨a, b⟩ := p
    simp only [valsNodup, List.map_cons, List.nodup_cons] at hm
    simp only [hvals, List.map_cons, List.mem_cons, not_or] at hv
    by_cases hak : a = k
    · subst hak
      simp only [valsNodup, hset, eq_self_iff_true, if_true, List.map_cons, List.nodup_cons]
      exact ⟨fun hmem => hv.2 hmem, hm.2⟩
    · simp only [valsNodup, hset, if_neg hak, List.map_cons, List.nodup_cons]
      refine ⟨fun hmem => ?_, ih hm.2 hv.2⟩
      rcases mem_snd_hset hmem with h1 | h1
      · exact hv.1 h1.symm
      · exact hm.1 h1

theorem keysNodup_hdel {m : List (String × ProducerID)} {k : String}
    (h : keysNodup m) : keysNodup (hdel m k) :=
  List.Nodup.sublist (List.Sublist.map Prod.fst (List.filter_sublist m)) h

theorem valsNodup_hdel {m : List (String × ProducerID)} {k : String}
    (h : valsNodup m) : valsNodup (hdel m k) :=
  List.Nodup.sublist (List.Sublist.map Prod.snd (List.filter_sublist m)) h

theorem hget_hdel_self (m : List (String × ProducerID)) (k : String) :
    hget (hdel m k) k = none := by
  induction m with
  | nil => simp [hdel, hget]
  | cons p t ih =>
    obtain ⟨a, b⟩ := p
    by_cases hak : a = k
    · simpa [hdel, hak] using ih
    · simpa [hdel, hget, List.filter_cons, hak] using ih

theorem hget_hdel_ne {m : List (String × ProducerID)} {k k' : String} (h : k' ≠ k) :
    hget (hdel m k) k' = hget m k' := by
  induction m with
  | nil => simp [hdel]
  | cons p t ih =>
    obtain ⟨a, b⟩ := p
    by_cases hak : a = k
    · subst hak
      simpa [hdel, hget, Ne.symm h, List.filter_cons] using ih
    · by_cases hak' : a = k'
      · simp [hdel, hget, List.filter_cons, hak, hak', h]
      · simpa [hdel, hget, List.filter_cons, hak, hak'] using ih

theorem hdel_eq_of_hget_none {m : List (String × ProducerID)} {k : String}
    (h : hget m k = none) : hdel m k = m := by
  induction m with
  | nil => simp [hdel]
  | cons p t ih =>
    obtain ⟨a, b⟩ := p
    by_cases hak : a = k
    · simp [hget, hak] at h
    · simp only [hget, if_neg hak] at h
      simp [hdel, List.filter_cons, hak] at ih ⊢
      exact ih h

theorem lrange_lpush_self (L : List (String × List JVal)) (k : String) (v : JVal) :
    lrange (lpush L k v) k = v :: lrange L k := by
  induction L with
  | nil => simp [lpush, lrange]
  | cons p t ih =>
    obtain ⟨a, l⟩ := p
    by_cases hak : a = k
    · simp [lpush, lrange, hak]
    · simp [lpush, lrange, hak, ih]

theorem lrange_lpush_ne {L : List (String × List JVal)} {k k' : String} {v : JVal}
    (h : k' ≠ k) : lrange (lpush L k v) k' = lrange L k' := by
  induction L with
  | nil => simp [lpush, lrange, Ne.symm h]
  | cons p t ih =>
    obtain ⟨a, l⟩ := p
    by_cases hak : a = k
    · subst hak
      simp [lpush, lrange, Ne.symm h]
    · by_cases hak' : a = k'
      · simp [lpush, lrange, hak, hak', h]
      · simp [lpush, lrange, hak, hak', ih]

/-- The two history key namespaces never collide: a pod history key is
never equal to a producer history key, whatever the pod name and id. -/
theorem mk_keys_ne (P : String) (v : ProducerID) : mk_pod_key P ≠ mk_producer_key v := by
  intro h
  have h2 := congrArg (fun s => s.data[33]?) h
  simp only [mk_pod_key, mk_producer_key, String.data_append] at h2
  rw [List.getElem?_append_left (by decide), List.getElem?_append_left (by decide)] at h2
  simp at h2

/-! ### Inversion of `acquire` -/

/-- Complete case analysis of a terminating `acquire` call: which fault
(if any) stopped it, where the returned id came from (`HGET` hit or
`new_id`), and the exact store it leaves behind at each stopping point. -/
theorem acquire_inv {f : Faults} {st : Store} {P : String} {draws : Nat → Nat}
    {fuel t1 t2 : Nat} {r : Except Error ProducerID} {st' : Store}
    (h : acquire f st P draws fuel t1 t2 = some (r, st')) :
    (f.hvalsFail = true ∧ r = Except.error Error.redis ∧ st' = st) ∨
    (f.hvalsFail = false ∧ ∃ v : ProducerID,
      ((f.hgetFail = false ∧ hget st.ids P = some v) ∨
       ((f.hgetFail = true ∨ hget st.ids P = none) ∧
         new_id (hvals st.ids) draws 0 fuel = some v)) ∧
      ((f.hsetFail = true ∧ r = Except.error Error.redis ∧ st' = st) ∨
       (f.hsetFail = false ∧
         ((f.lpushPodFail = true ∧ r = Except.error Error.redis ∧
            st' = { st with ids := hset st.ids P v }) ∨
          (f.lpushPodFail = false ∧
            ((f.lpushProdFail = true ∧ r = Except.error Error.redis ∧
               st' = { ids := hset st.ids P v,
                       lists := lpush st.lists (mk_pod_key P)
                         (PodHistoryEntry.toJSON ⟨v, t1⟩) }) ∨
             (f.lpushProdFail = false ∧ r = Except.ok v ∧
               st' = { ids := hset st.ids P v,
                       lists := lpush (lpush st.lists (mk_pod_key P)
                           (PodHistoryEntry.toJSON ⟨v, t1⟩))
                         (mk_producer_key v)
                         (ProducerHistoryEntry.toJSON ⟨P, t2⟩) }))))))) := by
  simp only [acquire] at h
  cases hv : f.hvalsFail with
  | true =>
    rw [hv] at h
    simp at h
    exact Or.inl ⟨rfl, h.1.symm, h.2.symm⟩
  | false =>
    rw [hv] at h
    simp only [Bool.false_eq_true, if_false] at h
    refine Or.inr ⟨rfl, ?_⟩
    cases hg : f.hgetFail with
    | true =>
      rw [hg] at h
      simp only [if_true] at h
      cases hn : new_id (hvals st.ids) draws 0 fuel with
      | none => rw [hn] at h; simp at h
      | some w =>
        rw [hn] at h
        refine ⟨w, Or.inr ⟨Or.inl rfl, rfl⟩, ?_⟩
        cases hs : f.hsetFail with
        | true => rw [hs] at h; simp at h; exact Or.inl ⟨rfl, h.1.symm, h.2.symm⟩
        | false =>
          rw [hs] at h
          simp only [Bool.false_eq_true, if_false] at h
          refine Or.inr ⟨rfl, ?_⟩
          cases hp : f.lpushPodFail with
          | true => rw [hp] at h; simp at h; exact Or.inl ⟨rfl, h.1.symm, h.2.symm⟩
          | false =>
            rw [hp] at h
            simp only [Bool.false_eq_true, if_false] at h
            refine Or.inr ⟨rfl, ?_⟩
            cases hq : f.lpushProdFail with
            | true => rw [hq] at h; simp at h; exact Or.inl ⟨rfl, h.1.symm, h.2.symm⟩
            | false =>
              rw [hq] at h
              simp at h
              exact Or.inr ⟨rfl, h.1.symm, h.2.symm⟩
    | false =>
      rw [hg] at h
      simp only [Bool.false_eq_true, if_false] at h
      cases hgr : hget st.ids P with
      | none =>
        rw [hgr] at h
        cases hn : new_id (hvals st.ids) draws 0 fuel with
        | none => rw [hn] at h; simp at h
        | some w =>
          rw [hn] at h
          refine ⟨w, Or.inr ⟨Or.inr rfl, rfl⟩, ?_⟩
          cases hs : f.hsetFail with
          | true => rw [hs] at h; simp at h; exact Or.inl ⟨rfl, h.1.symm, h.2.symm⟩
          | false =>
            rw [hs] at h
            simp only [Bool.false_eq_true, if_false] at h
            refine Or.inr ⟨rfl, ?_⟩
            cases hp : f.lpushPodFail with
            | true => rw [hp] at h; simp at h; exact Or.inl ⟨rfl, h.1.symm, h.2.symm⟩
            | false =>
              rw [hp] at h
              simp only [Bool.false_eq_true, if_false] at h
              refine Or.inr ⟨rfl, ?_⟩
              cases hq : f.lpushProdFail with
              | true => rw [hq] at h; simp at h; exact Or.inl ⟨rfl, h.1.symm, h.2.symm⟩
              | false =>
                rw [hq] at h
                simp at h
                exact Or.inr ⟨rfl, h.1.symm, h.2.symm⟩
      | some w =>
        rw [hgr] at h
        refine ⟨w, Or.inl ⟨rfl, rfl⟩, ?_⟩
        cases hs : f.hsetFail with
        | true => rw [hs] at h; simp at h; exact Or.inl ⟨rfl, h.1.symm, h.2.symm⟩
        | false =>
          rw [hs] at h
          simp only [Bool.false_eq_true, if_false] at h
          refine Or.inr ⟨rfl, ?_⟩
          cases hp : f.lpushPodFail with
          | true => rw [hp] at h; simp at h; exact Or.inl ⟨rfl, h.1.symm, h.2.symm⟩
          | false =>
            rw [hp] at h
            simp only [Bool.false_eq_true, if_false] at h
            refine Or.inr ⟨rfl, ?_⟩
            cases hq : f.lpushProdFail with
            | true => rw [hq] at h; simp at h; exact Or.inl ⟨rfl, h.1.symm, h.2.symm⟩
            | false =>
              rw [hq] at h
              simp at h
              exact Or.inr ⟨rfl, h.1.symm, h.2.symm⟩

/-- Specialized inversion for a fault-free, successful `acquire`: where
the id came from and exactly how the store changed. -/
theorem acquire_ok_noFaults_inv {st : Store} {P : String} {draws : Nat → Nat}
    {fuel t1 t2 : Nat} {v : ProducerID} {st' : Store}
    (h : acquire noFaults st P draws fuel t1 t2 = some (Except.ok v, st')) :
    (hget st.ids P = some v ∨
      (hget st.ids P = none ∧ new_id (hvals st.ids) draws 0 fuel = some v)) ∧
    st' = { ids := hset st.ids P v,
            lists := lpush (lpush st.lists (mk_pod_key P) (PodHistoryEntry.toJSON ⟨v, t1⟩))
              (mk_producer_key v) (ProducerHistoryEntry.toJSON ⟨P, t2⟩) } := by
  rcases acquire_inv h with ⟨hf, _, _⟩ | ⟨_, w, hv, hrest⟩
  · simp [noFaults] at hf
  · rcases hrest with ⟨hf, _, _⟩ | ⟨_, ⟨hf, _, _⟩ | ⟨_, ⟨hf, _, _⟩ | ⟨_, hr, hst⟩⟩⟩
    · simp [noFaults] at hf
    · simp [noFaults] at hf
    · simp [noFaults] at hf
    · injection hr with hr'
      subst hr'
      refine ⟨?_, hst⟩
      rcases hv with ⟨_, hv⟩ | ⟨hor, hn⟩
      · exact Or.inl hv
      · rcases hor with hg | hg
        · simp [noFaults] at hg
        · exact Or.inr ⟨hg, hn⟩

/-- Forward evaluation of a fault-free `acquire` whose `HGET` hits. -/
theorem acquire_hit {st : Store} {P : String} {draws : Nat → Nat} {fuel t1 t2 : Nat}
    {v : ProducerID} (hv : hget st.ids P = some v) :
    acquire noFaults st P draws fuel t1 t2 =
      some (Except.ok v,
        { ids := hset st.ids P v,
          lists := lpush (lpush st.lists (mk_pod_key P) (PodHistoryEntry.toJSON ⟨v, t1⟩))
            (mk_producer_key v) (ProducerHistoryEntry.toJSON ⟨P, t2⟩) }) := by
  simp [acquire, noFaults, hv]

theorem collectDecoded_none_of_mem {T : Type} {dec : JVal → Option T} {l : List JVal}
    {e : JVal} (he : e ∈ l) (hd : dec e = none) : collectDecoded dec l = none := by
  induction l with
  | nil => cases he
  | cons a t ih =>
    rcases List.mem_cons.mp he with h1 | h1
    · subst h1
      cases hc : collectDecoded dec t <;> simp [collectDecoded, hd, hc]
    · cases hda : dec a <;> simp [collectDecoded, hda, ih h1]

theorem collectDecoded_all_some {T : Type} {dec : JVal → Option T} {l : List JVal}
    (h : ∀ e ∈ l, (dec e).isSome) :
    ∃ res, collectDecoded dec l = some res ∧ l.map dec = res.map some := by
  induction l with
  | nil => exact ⟨[], rfl, rfl⟩
  | cons a t ih =>
    obtain ⟨x, hx⟩ := Option.isSome_iff_exists.mp (h a (List.mem_cons_self _ _))
    obtain ⟨res, h1, h2⟩ := ih (fun e he => h e (List.mem_cons_of_mem _ he))
    exact ⟨x :: res, by simp [collectDecoded, hx, h1], by simp [hx, h2]⟩

/-- `acquire` preserves distinctness of the table's fields and values:
a returned id is either the pod's current id (rewritten in place) or a
`new_id` draw, which is never a current value. -/
theorem acquire_preserves_wf {f : Faults} {st : Store} {P : String} {draws : Nat → Nat}
    {fuel t1 t2 : Nat} {r : Except Error ProducerID} {st' : Store}
    (hw : keysNodup st.ids ∧ valsNodup st.ids)
    (h : acquire f st P draws fuel t1 t2 = some (r, st')) :
    keysNodup st'.ids ∧ valsNodup st'.ids := by
  rcases acquire_inv h with ⟨_, _, hst⟩ | ⟨_, v, hv, hrest⟩
  · rw [hst]; exact hw
  · have hids : st'.ids = st.ids ∨ st'.ids = hset st.ids P v := by
      rcases hrest with ⟨_, _, hst⟩ | ⟨_, ⟨_, _, hst⟩ | ⟨_, ⟨_, _, hst⟩ | ⟨_, _, hst⟩⟩⟩ <;>
        rw [hst] <;> simp
    rcases hv with ⟨_, hv⟩ | ⟨_, hn⟩
    · rcases hids with h1 | h1
      · rw [h1]; exact hw
      · rw [h1, hset_eq_of_hget hv]; exact hw
    · have hg := goodDraw_eq_true (new_id_good hn)
      rcases hids with h1 | h1
      · rw [h1]; exact hw
      · rw [h1]; exact ⟨keysNodup_hset hw.1, valsNodup_hset hw.2 hg.2⟩

/-- `release` preserves distinctness of the table's fields and values. -/
theorem release_preserves_wf {f : Faults} {st : Store} {P : String}
    (hw : keysNodup st.ids ∧ valsNodup st.ids) :
    keysNodup (release f st P).2.ids ∧ valsNodup (release f st P).2.ids := by
  by_cases hd : f.hdelFail
  · simpa [release, hd] using hw
  · simp only [release, hd, Bool.false_eq_true, if_false]
    exact ⟨keysNodup_hdel hw.1, valsNodup_hdel hw.2⟩

/-- Distinctness of fields and values is an invariant of arbitrary
sequential runs of the engine's operations. -/
theorem runOps_preserves_wf :
    ∀ (ops : List (Faults × Op)) (st st' : Store),
      keysNodup st.ids ∧ valsNodup st.ids → runOps st ops = some st' →
      keysNodup st'.ids ∧ valsNodup st'.ids := by
  intro ops
  induction ops with
  | nil =>
    intro st st' hw h
    simp only [runOps, Option.some.injEq] at h
    rw [← h]; exact hw
  | cons p rest ih =>
    intro st st' hw h
    obtain ⟨f, op⟩ := p
    simp only [runOps] at h
    cases hro : runOp f st op with
    | none => rw [hro] at h; simp at h
    | some st1 =>
      rw [hro] at h
      refine ih st1 st' ?_ h
      cases op with
      | acq P draws fuel ta tb =>
        simp only [runOp] at hro
        cases ha : acquire f st P draws fuel ta tb with
        | none => rw [ha] at hro; simp at hro
        | some pr =>
          rw [ha] at hro
          obtain ⟨r, st2⟩ := pr
          simp only [Option.map_some', Option.some.injEq] at hro
          rw [← hro]
          exact acquire_preserves_wf hw ha
      | rel P =>
        simp only [runOp, Option.some.injEq] at hro
        rw [← hro]
        exact release_preserves_wf hw

/-! ### The claims -/

/-- C1: for every pod name with no binding in the Active Assignment
Table at the start of the call, a terminating fault-free `acquire`
returns a ProducerID that is not 0 and is not among the values of the
table as read at the start of the call (the exclusion set). -/
theorem acquire_fresh_id (st : Store) (P : String) (draws : Nat → Nat)
    (fuel t1 t2 : Nat) (v : ProducerID) (st' : Store)
    (hfresh : hget st.ids P = none)
    (h : acquire noFaults st P draws fuel t1 t2 = some (Except.ok v, st')) :
    v ≠ 0 ∧ v ∉ hvals st.ids := by
  obtain ⟨hsrc, -⟩ := acquire_ok_noFaults_inv h
  rcases hsrc with hv | ⟨-, hn⟩
  · rw [hfresh] at hv; cases hv
  · exact goodDraw_eq_true (new_id_good hn)

/-- C1 witness: `acquire "p"` on the empty store returns 1, which is
nonzero and outside the (empty) exclusion set. -/
theorem acquire_fresh_id_witness :
    (1 : ProducerID) ≠ 0 ∧ (1 : ProducerID) ∉ hvals emptyStore.ids :=
  acquire_fresh_id emptyStore "p" (fun _ => 1) 1 0 0 1 oneAcqStore rfl rfl

/-- C2: starting from an empty Active Assignment Table, after any
terminating finite sequence of sequentially executed acquire and
release operations, the table is injective: distinct pod names never
hold the same ProducerID. -/
theorem run_table_injective (ops : List (Faults × Op)) (st' : Store)
    (h : runOps emptyStore ops = some st') (a b : String) (va vb : ProducerID)
    (ha : hget st'.ids a = some va) (hb : hget st'.ids b = some vb)
    (hne : a ≠ b) : va ≠ vb := by
  have hw := runOps_preserves_wf ops emptyStore st'
    (by constructor <;> simp [emptyStore, keysNodup, valsNodup]) h
  intro he
  apply hne
  have h1 := hget_mem ha
  have h2 := hget_mem hb
  have h3 : (a, va) = (b, vb) := List.inj_on_of_nodup_map hw.2 h1 h2 he
  exact congrArg Prod.fst h3

/-- C2 witness: after acquiring pods `a` and `b`, their ids 1 and 2
differ. -/
theorem run_table_injective_witness : (1 : ProducerID) ≠ 2 :=
  run_table_injective c2Ops c2RunStore rfl "a" "b" 1 2 rfl rfl (by decide)

/-- C3: two successful `acquire` calls for the same pod name, in
sequence with no intervening release, return the same ProducerID, and
the second call leaves the Active Assignment Table entry (indeed, the
whole table) unchanged. -/
theorem acquire_twice_same_id (st : Store) (P : String) (d1 d2 : Nat → Nat)
    (fu1 fu2 ta tb tc td : Nat) (v w : ProducerID) (st1 st2 : Store)
    (h1 : acquire noFaults st P d1 fu1 ta tb = some (Except.ok v, st1))
    (h2 : acquire noFaults st1 P d2 fu2 tc td = some (Except.ok w, st2)) :
    w = v ∧ hget st2.ids P = some v ∧ st2.ids = st1.ids := by
  obtain ⟨-, hst1⟩ := acquire_ok_noFaults_inv h1
  have hv1 : hget st1.ids P = some v := by rw [hst1]; exact hget_hset_self _ _ _
  obtain ⟨hsrc2, hst2⟩ := acquire_ok_noFaults_inv h2
  rcases hsrc2 with hv2 | ⟨hv2, -⟩
  · rw [hv1] at hv2
    injection hv2 with hv2'
    subst hv2'
    refine ⟨rfl, ?_, ?_⟩
    · rw [hst2]; exact hget_hset_self _ _ _
    · rw [hst2]; exact hset_eq_of_hget hv1
  · rw [hv1] at hv2; cases hv2

/-- C3 witness: re-acquiring `"p"` returns 1 again and leaves the
table unchanged. -/
theorem acquire_twice_same_id_witness :
    (1 : ProducerID) = 1 ∧ hget twoAcqStore.ids "p" = some 1 ∧
      twoAcqStore.ids = oneAcqStore.ids :=
  acquire_twice_same_id emptyStore "p" (fun _ => 1) (fun _ => 9) 1 0 0 0 0 0 1 1
    oneAcqStore twoAcqStore rfl rfl

/-- C4 counterexample: with only the read of the existing binding
(`HGET`) failing, `acquire` on pod `"web"` — which has an active
binding to 5 — does not surface the store failure: it succeeds and
returns the freshly generated id 1. -/
theorem acquire_hget_failure_swallowed :
    (acquire hgetOnlyFaults webStore "web" (fun _ => 1) 1 0 0).map Prod.fst =
      some (Except.ok 1) := rfl

/-- C4 (amended): `acquire` fails with a store error whenever the
exclusion-set read, the binding write, or either history append fails;
a failure of the existing-binding read is not surfaced — it is treated
as an absent binding (see the counterexample). -/
theorem acquire_store_error_surfaced (f : Faults) (st : Store) (P : String)
    (draws : Nat → Nat) (fuel t1 t2 : Nat) (r : Except Error ProducerID) (st' : Store)
    (hf : f.hvalsFail = true ∨ f.hsetFail = true ∨
      f.lpushPodFail = true ∨ f.lpushProdFail = true)
    (h : acquire f st P draws fuel t1 t2 = some (r, st')) :
    r = Except.error Error.redis := by
  rcases acquire_inv h with ⟨_, hr, _⟩ | ⟨hv, w, _, hrest⟩
  · exact hr
  · rcases hrest with ⟨_, hr, _⟩ | ⟨hs, ⟨_, hr, _⟩ | ⟨hp, ⟨_, hr, _⟩ | ⟨hq, hr, _⟩⟩⟩
    · exact hr
    · exact hr
    · exact hr
    · rcases hf with hx | hx | hx | hx <;> simp_all

/-- C4 witness: with the binding write failing, `acquire` reports the
store error. -/
theorem acquire_store_error_surfaced_witness :
    (Except.error Error.redis : Except Error ProducerID) = Except.error Error.redis :=
  acquire_store_error_surfaced hsetOnlyFaults emptyStore "p" (fun _ => 1) 1 0 0
    (Except.error Error.redis) emptyStore (Or.inr (Or.inl rfl)) rfl

/-- C5: every successful `acquire` grows the pod's Pod History Log by
exactly one entry and the returned id's Producer History Log by exactly
one entry, whether the binding was fresh or already existed. -/
theorem acquire_history_lengths (st : Store) (P : String) (draws : Nat → Nat)
    (fuel t1 t2 : Nat) (v : ProducerID) (st' : Store)
    (h : acquire noFaults st P draws fuel t1 t2 = some (Except.ok v, st')) :
    (lrange st'.lists (mk_pod_key P)).length =
        (lrange st.lists (mk_pod_key P)).length + 1 ∧
      (lrange st'.lists (mk_producer_key v)).length =
        (lrange st.lists (mk_producer_key v)).length + 1 := by
  obtain ⟨-, hst⟩ := acquire_ok_noFaults_inv h
  subst hst
  constructor
  · show (lrange (lpush (lpush st.lists _ _) _ _) _).length = _
    rw [lrange_lpush_ne (mk_keys_ne P v), lrange_lpush_self]
    rfl
  · show (lrange (lpush (lpush st.lists _ _) _ _) _).length = _
    rw [lrange_lpush_self, lrange_lpush_ne (Ne.symm (mk_keys_ne P v))]
    rfl

/-- C5 witness: the first `acquire "p"` grows both logs from length 0
to length 1. -/
theorem acquire_history_lengths_witness :
    (lrange oneAcqStore.lists (mk_pod_key "p")).length =
        (lrange emptyStore.lists (mk_pod_key "p")).length + 1 ∧
      (lrange oneAcqStore.lists (mk_producer_key 1)).length =
        (lrange emptyStore.lists (mk_producer_key 1)).length + 1 :=
  acquire_history_lengths emptyStore "p" (fun _ => 1) 1 0 0 1 oneAcqStore rfl

/-- C6: `release` removes the pod's table entry if present, succeeds
as a no-op when the pod has no entry, and leaves every history list and
every other pod's entry unchanged. -/
theorem release_removes_only_binding (st : Store) (P : String)
    (r : Except Error Unit) (st' : Store)
    (h : release noFaults st P = (r, st')) :
    r = Except.ok () ∧ st'.lists = st.lists ∧ hget st'.ids P = none ∧
      (∀ Q, Q ≠ P → hget st'.ids Q = hget st.ids Q) ∧
      (hget st.ids P = none → st'.ids = st.ids) := by
  simp only [release, noFaults, Bool.false_eq_true, if_false] at h
  injection h with hr hs
  subst hr
  subst hs
  exact ⟨rfl, rfl, hget_hdel_self _ _, fun Q hQ => hget_hdel_ne hQ,
    fun hn => hdel_eq_of_hget_none hn⟩

/-- C6 witness: releasing `"p"` from a one-entry table removes its
binding. -/
theorem release_removes_only_binding_witness :
    hget emptyStore.ids "p" = none :=
  (release_removes_only_binding relStore "p" (Except.ok ()) emptyStore rfl).2.2.1

/-- C7: round-trip — the two history entries appended by a successful
`acquire` are exactly reproduced (field values and timestamps) at the
head of the corresponding history reads, serialization followed by
deserialization being the identity. -/
theorem acquire_history_roundtrip (st : Store) (P : String) (draws : Nat → Nat)
    (fuel t1 t2 : Nat) (v : ProducerID) (st' : Store)
    (l : List PodHistoryEntry) (l' : List ProducerHistoryEntry)
    (h : acquire noFaults st P draws fuel t1 t2 = some (Except.ok v, st'))
    (hp : pod_history noFaults st P = Except.ok l)
    (hq : producer_history noFaults st v = Except.ok l') :
    pod_history noFaults st' P = Except.ok (⟨v, t1⟩ :: l) ∧
      producer_history noFaults st' v = Except.ok (⟨P, t2⟩ :: l') := by
  obtain ⟨-, hst⟩ := acquire_ok_noFaults_inv h
  subst hst
  simp only [pod_history, producer_history, history, noFaults, Bool.false_eq_true,
    if_false] at hp hq ⊢
  constructor
  · cases hcp : collectDecoded PodHistoryEntry.fromJSON (lrange st.lists (mk_pod_key P)) with
    | none => rw [hcp] at hp; cases hp
    | some x =>
      rw [hcp] at hp
      injection hp with hp'
      subst hp'
      rw [lrange_lpush_ne (mk_keys_ne P v), lrange_lpush_self]
      simp [collectDecoded, hcp, PodHistoryEntry.toJSON, PodHistoryEntry.fromJSON]
  · cases hcq : collectDecoded ProducerHistoryEntry.fromJSON
        (lrange st.lists (mk_producer_key v)) with
    | none => rw [hcq] at hq; cases hq
    | some x =>
      rw [hcq] at hq
      injection hq with hq'
      subst hq'
      rw [lrange_lpush_self, lrange_lpush_ne (Ne.symm (mk_keys_ne P v))]
      simp [collectDecoded, hcq, ProducerHistoryEntry.toJSON, ProducerHistoryEntry.fromJSON]

/-- C7 witness: after acquiring `"p"` with id 1 at timestamps 0, both
history reads reproduce the appended entries. -/
theorem acquire_history_roundtrip_witness :
    pod_history noFaults oneAcqStore "p" = Except.ok [⟨1, 0⟩] ∧
      producer_history noFaults oneAcqStore 1 = Except.ok [⟨"p", 0⟩] :=
  acquire_history_roundtrip emptyStore "p" (fun _ => 1) 1 0 0 1 oneAcqStore [] []
    rfl rfl rfl

/-- C8: if any stored entry of a history log fails to decode, the
whole read (`pod_history` or `producer_history`) fails with a decode
error; conversely if every entry decodes, the full log is returned in
stored order. -/
theorem history_reads_all_or_nothing (st : Store) (P : String) (pid : ProducerID) :
    (∀ e, e ∈ lrange st.lists (mk_pod_key P) → PodHistoryEntry.fromJSON e = none →
        pod_history noFaults st P = Except.error Error.json) ∧
    ((∀ e, e ∈ lrange st.lists (mk_pod_key P) → (PodHistoryEntry.fromJSON e).isSome) →
      ∃ l, pod_history noFaults st P = Except.ok l ∧
        (lrange st.lists (mk_pod_key P)).map PodHistoryEntry.fromJSON = l.map some) ∧
    (∀ e, e ∈ lrange st.lists (mk_producer_key pid) →
        ProducerHistoryEntry.fromJSON e = none →
        producer_history noFaults st pid = Except.error Error.json) ∧
    ((∀ e, e ∈ lrange st.lists (mk_producer_key pid) →
        (ProducerHistoryEntry.fromJSON e).isSome) →
      ∃ l, producer_history noFaults st pid = Except.ok l ∧
        (lrange st.lists (mk_producer_key pid)).map ProducerHistoryEntry.fromJSON =
          l.map some) := by
  refine ⟨fun e he hd => ?_, fun hall => ?_, fun e he hd => ?_, fun hall => ?_⟩
  · simp [pod_history, history, noFaults, collectDecoded_none_of_mem he hd]
  · obtain ⟨res, h1, h2⟩ := collectDecoded_all_some hall
    exact ⟨res, by simp [pod_history, history, noFaults, h1], h2⟩
  · simp [producer_history, history, noFaults, collectDecoded_none_of_mem he hd]
  · obtain ⟨res, h1, h2⟩ := collectDecoded_all_some hall
    exact ⟨res, by simp [producer_history, history, noFaults, h1], h2⟩

/-- C8 witness: one malformed entry makes the whole pod history read
fail with a decode error. -/
theorem history_reads_all_or_nothing_witness :
    pod_history noFaults badEntryStore "p" = Except.error Error.json :=
  (history_reads_all_or_nothing badEntryStore "p" 0).1 (JVal.num 0) (List.Mem.head _) rfl

/-- C9: `new_id` is unbounded rejection sampling: it returns the
first draw in the stream that is nonzero and outside the exclusion set,
terminating with exactly that draw once enough fuel (loop iterations)
is allowed, and any value it ever returns is nonzero and outside the
exclusion set. -/
theorem new_id_rejection_sampling (all_ids : List ProducerID) (draws : Nat → Nat)
    (j : Nat) (hg : goodDraw all_ids (draws j % UINT16) = true)
    (hfirst : ∀ i, i < j → goodDraw all_ids (draws i % UINT16) = false) :
    (∀ fuel, j < fuel → new_id all_ids draws 0 fuel = some (draws j % UINT16)) ∧
      (∀ start fuel v, new_id all_ids draws start fuel = some v →
        v ≠ 0 ∧ v ∉ all_ids) := by
  constructor
  · intro fuel hf
    exact new_id_finds fuel 0 j (Nat.zero_le _) (by omega) hg (fun i _ h2 => hfirst i h2)
  · intro start fuel v h
    exact goodDraw_eq_true (new_id_good h)

/-- C9 witness: with exclusion set `[1]` and the identity stream,
draws 0 and 1 are rejected and draw 2 is returned. -/
theorem new_id_rejection_sampling_witness :
    new_id [1] (fun i => i) 0 3 = some 2 :=
  (new_id_rejection_sampling [1] (fun i => i) 2 (by decide) (by decide)).1 3 (by decide)

/-- C10: the history appends are ordered strictly after the table
write inside `acquire`: if the table write fails, the error is returned
with the whole store (in particular both history logs) untouched; if
the pod-history append fails, the error is returned with the table
entry already written and no history list touched. -/
theorem acquire_append_after_table_write (st : Store) (P : String) (draws : Nat → Nat)
    (fuel t1 t2 : Nat) :
    (∀ r st', acquire hsetOnlyFaults st P draws fuel t1 t2 = some (r, st') →
      r = Except.error Error.redis ∧ st' = st) ∧
    (∀ r st', acquire lpushPodOnlyFaults st P draws fuel t1 t2 = some (r, st') →
      r = Except.error Error.redis ∧ st'.lists = st.lists ∧
        ∃ v, hget st'.ids P = some v) := by
  constructor
  · intro r st' h
    rcases acquire_inv h with ⟨hf, _, _⟩ | ⟨_, w, _, hrest⟩
    · simp [hsetOnlyFaults] at hf
    · rcases hrest with ⟨_, hr, hst⟩ | ⟨hs, _⟩
      · exact ⟨hr, hst⟩
      · simp [hsetOnlyFaults] at hs
  · intro r st' h
    rcases acquire_inv h with ⟨hf, _, _⟩ | ⟨_, w, _, hrest⟩
    · simp [lpushPodOnlyFaults] at hf
    · rcases hrest with ⟨hf, _, _⟩ | ⟨_, ⟨_, hr, hst⟩ | ⟨hp, _⟩⟩
      · simp [lpushPodOnlyFaults] at hf
      · subst hst
        exact ⟨hr, rfl, w, hget_hset_self _ _ _⟩
      · simp [lpushPodOnlyFaults] at hp

/-- C10 witness: a failing table write on the empty store errors and
leaves the store empty. -/
theorem acquire_append_after_table_write_witness :
    (Except.error Error.redis : Except Error ProducerID) = Except.error Error.redis ∧
      emptyStore = emptyStore :=
  (acquire_append_after_table_write emptyStore "p" (fun _ => 1) 1 0 0).1
    (Except.error Error.redis) emptyStore rfl

end ProduceridService
